import Mathlib

/-!
Verification development for the robinhood-library PDF page toolset.

The five tools under src/_process/tools are embedded shallowly:

* a document is a list of pages; a page is either opaque (a type
  parameter) or, where text extraction matters, an optional string
  (`none` models a page whose text extraction yields nothing);
* the filesystem is a function from path strings to optional documents,
  and a directory is a list of entry names given in enumeration order
  (the order os.scandir yields, which `pathlib.Path.glob` preserves);
* Python exceptions become an error type returned through `Except`;
* the PyPDF2 reader/writer collaborator is modelled by the document
  lists themselves, and `hashlib.sha256` is an explicit function
  parameter, since both are external libraries;
* CPython float arithmetic in `pdf_stats.py` is modelled exactly over
  the rationals with round-to-nearest-even at 53-bit precision.
-/

deriving instance DecidableEq for Except

namespace Robin

/-- Python exceptions raised by the tools: `FileNotFoundError`,
`ValueError` (the spec calls these NotFoundError and ValidationError),
and `IndexError` (raised by a PyPDF2 page lookup out of range). -/
inductive ToolError where
  | fileNotFound (msg : String)
  | valueError (msg : String)
  | indexError
  deriving DecidableEq, Repr

/-- The decimal digit characters, as a table. -/
def digitChar : Nat → Char
  | 0 => '0'
  | 1 => '1'
  | 2 => '2'
  | 3 => '3'
  | 4 => '4'
  | 5 => '5'
  | 6 => '6'
  | 7 => '7'
  | 8 => '8'
  | _ => '9'

/-- Little-endian decimal digits of `n`, with explicit fuel (the fuel is
always sufficient because a number bounds its own digit count). -/
def decDigitsRev : Nat → Nat → List Char
  | 0, _ => []
  | f + 1, n => if n = 0 then [] else digitChar (n % 10) :: decDigitsRev f (n / 10)

/-- Decimal representation of a natural number; models Python `str(n)`
and the digits produced by `format(n, "d")` for nonnegative `n`. -/
def natRepr (n : Nat) : String :=
  if n = 0 then "0" else String.mk (decDigitsRev n n).reverse

/-- Models the Python format specifier `04d` on a nonnegative integer:
the decimal digits, left-padded with zeros to at least four characters. -/
def pad4 (n : Nat) : String :=
  String.mk (List.replicate (4 - (natRepr n).data.length) '0' ++ (natRepr n).data)

/-- Value of a big-endian string of decimal digit characters; an
evaluation inverse used to prove `pad4` injective. -/
def evalBE (cs : List Char) : Nat :=
  cs.foldl (fun a c => 10 * a + (c.toNat - 48)) 0

/-- Models Python `str.lower` on the ASCII strings that appear here. -/
def lowerStr (s : String) : String :=
  String.mk (s.data.map Char.toLower)

/-- Final component of a path string, as `pathlib.PurePath.name` returns
it for the slash-free and `dir/file` shaped paths used by these tools. -/
def pathName (p : String) : String :=
  String.mk (p.data.foldl (fun acc c => if c = '/' then [] else acc ++ [c]) [])

/-- Models `pathlib.PurePath.suffix`: the part of the final component
from the last dot on, provided that dot is neither the first nor the
last character of the component; otherwise the empty string. -/
def pathSuffix (p : String) : String :=
  let name := (pathName p).data
  match name.reverse.findIdx? (fun c => c = '.') with
  | none => ""
  | some j =>
    let i := name.length - 1 - j
    if 0 < i ∧ i < name.length - 1 then String.mk (name.drop i) else ""

/-- Models `pathlib.PurePath.stem`: the final component with the suffix
recognised by `pathSuffix` removed. -/
def pathStem (p : String) : String :=
  let name := (pathName p).data
  match name.reverse.findIdx? (fun c => c = '.') with
  | none => String.mk name
  | some j =>
    let i := name.length - 1 - j
    if 0 < i ∧ i < name.length - 1 then String.mk (name.take i) else String.mk name

/-! ## Glob matching

`pathlib.Path.glob` matches one path component with `fnmatch` pattern
semantics: `*` matches any character sequence, `?` any single character,
and `[...]` a character class (leading `!` negates; a `]` directly after
the opening, or after `!`, is literal; an unterminated `[` is literal;
`a-b` inside a class is a range). Matching is over the full name. -/

/-- Membership of a character in the body of a character class. -/
def classMatch (c : Char) : List Char → Bool
  | [] => false
  | a :: '-' :: b :: rest => (a ≤ c && c ≤ b) || classMatch c rest
  | a :: rest => c == a || classMatch c rest

/-- Scan the remainder of a pattern after `[` up to the closing `]`.
Returns the class body and the rest of the pattern, or `none` when the
class is unterminated (in which case `[` is a literal). -/
def scanClassEnd : List Char → Option (List Char × List Char)
  | [] => none
  | ']' :: rest => some ([], rest)
  | c :: rest => (scanClassEnd rest).map (fun br => (c :: br.1, br.2))

/-- Scan a character class body, honouring a literal `]` placed first. -/
def scanClassBody : List Char → Option (List Char × List Char)
  | [] => none
  | ']' :: rest => (scanClassEnd rest).map (fun br => (']' :: br.1, br.2))
  | rest => scanClassEnd rest

/-- Scan a full character class, honouring a leading `!` negation.
Returns (negated, body, rest of pattern). -/
def scanClass : List Char → Option (Bool × List Char × List Char)
  | '!' :: rest => (scanClassBody rest).map (fun br => (true, br.1, br.2))
  | rest => (scanClassBody rest).map (fun br => (false, br.1, br.2))

/-- Fuel-driven fnmatch-style matcher; the fuel only needs to exceed the
combined length of pattern and name, which every caller supplies. -/
def globFuel : Nat → List Char → List Char → Bool
  | 0, _, _ => false
  | f + 1, pat, s =>
    match pat with
    | [] => s.isEmpty
    | c :: ps =>
      if c = '*' then
        globFuel f ps s ||
          (match s with
           | [] => false
           | _ :: s2 => globFuel f pat s2)
      else if c = '?' then
        (match s with
         | [] => false
         | _ :: s2 => globFuel f ps s2)
      else if c = '[' then
        (match scanClass ps with
         | none =>
           (match s with
            | [] => false
            | d :: s2 => if d = '[' then globFuel f ps s2 else false)
         | some nbr =>
           (match s with
            | [] => false
            | d :: s2 => (classMatch d nbr.2.1 != nbr.1) && globFuel f nbr.2.2 s2))
      else
        (match s with
         | [] => false
         | d :: s2 => c == d && globFuel f ps s2)

/-- Whether the glob pattern `pat` matches the whole name `s`. -/
def globMatch (pat s : List Char) : Bool :=
  globFuel (pat.length + s.length + 1) pat s

/-! ## split_pdf.py -/

/-- The single-page file name convention used by the splitter. -/
def pageName (stem : String) (ordinal : Nat) : String :=
  stem ++ "-page-" ++ pad4 ordinal ++ ".pdf"

/-- Embeds `split_pdf` from split_pdf.py: checks existence and the
`.pdf` suffix (lowercased), then writes page `i+1` of the document as
`<stem>-page-<i+1 padded>.pdf` in the output directory, returning the
written paths in ordinal order. The filesystem `fs` stands for the
files readable by PyPDF2; writing is modelled by the returned list. -/
def split_pdf {α : Type} (fs : String → Option (List α))
    (input_path output_dir : String) : Except ToolError (List String) :=
  match fs input_path with
  | none => .error (.fileNotFound ("Input file not found: " ++ input_path))
  | some doc =>
    if lowerStr (pathSuffix input_path) ≠ ".pdf" then
      .error (.valueError ("Input must be a PDF file, got: " ++ pathSuffix input_path))
    else
      .ok ((List.range doc.length).map
        (fun i => output_dir ++ "/" ++ pageName (pathStem input_path) (i + 1)))

/-! ## merge_pages.py -/

/-- The glob pattern `get_pages_from_dir` builds for one page number:
an exact stem when a stem filter is supplied, a `*` wildcard stem
otherwise. -/
def patternFor (stem : Option String) (n : Nat) : String :=
  match stem with
  | some s => s ++ "-page-" ++ pad4 n ++ ".pdf"
  | none => "*" ++ "-page-" ++ pad4 n ++ ".pdf"

/-- The directory entries matching the pattern for page `n`, in
directory enumeration order, exactly as `pages_dir.glob(pattern)`
yields them. -/
def matchesFor (listing : List String) (stem : Option String) (n : Nat) : List String :=
  listing.filter (fun f => globMatch (patternFor stem n).data f.data)

/-- The loop body of `get_pages_from_dir` over a list of page numbers:
for each number take the first glob match, or raise the
`FileNotFoundError` of the first number with no match. -/
def resolvePages (listing : List String) (dirPath : String) (stem : Option String) :
    List Nat → Except ToolError (List String)
  | [] => .ok []
  | n :: rest =>
    match matchesFor listing stem n with
    | [] => .error (.fileNotFound
        ("Page file not found for page " ++ natRepr n ++ " with pattern " ++ patternFor stem n))
    | m :: _ =>
      (resolvePages listing dirPath stem rest).map (fun l => (dirPath ++ "/" ++ m) :: l)

/-- Embeds `get_pages_from_dir` from merge_pages.py. The directory is
`none` when it does not exist, otherwise its entry listing in
enumeration order. Page numbers run over `range(start, stop + 1)`. -/
def get_pages_from_dir (dir : Option (List String)) (dirPath : String)
    (start stop : Nat) (stem : Option String) : Except ToolError (List String) :=
  match dir with
  | none => .error (.fileNotFound ("Pages directory not found: " ++ dirPath))
  | some listing => resolvePages listing dirPath stem (List.range' start (stop + 1 - start))

/-- First code point of every aligned run of ten Unicode decimal
digits (category Nd). Unicode 14.0 — the table CPython 3.11 ships —
has 660 such characters in 66 runs; later Unicode versions only add
further runs (Kawi and Nag Mundari in 15.0). -/
def ndBases : List Nat :=
  [48, 1632, 1776, 1984, 2406, 2534, 2662, 2790, 2918, 3046, 3174, 3302,
   3430, 3558, 3664, 3792, 3872, 4160, 4240, 6112, 6160, 6470, 6608, 6784,
   6800, 6992, 7088, 7232, 7248, 42528, 43216, 43264, 43472, 43504, 43600,
   44016, 65296, 66720, 68912, 69734, 69872, 69942, 70096, 70384, 70736,
   70864, 71248, 71360, 71472, 71904, 72016, 72784, 73040, 73120, 92768,
   92864, 93008, 120782, 120792, 120802, 120812, 120822, 123200, 123632,
   125264, 130032]

/-- Models `\d` of the unflagged range regex: any Unicode decimal
digit, that is, any character of category Nd. -/
def isDigitChar (c : Char) : Bool :=
  ndBases.any (fun b => b ≤ c.toNat && c.toNat < b + 10)

/-- The decimal value of a Unicode decimal digit: its offset inside
its run of ten. This is the per-character value `int()` assigns when
parsing a captured digit group; 0 on non-digits (unreachable here). -/
def digitVal (c : Char) : Nat :=
  match ndBases.find? (fun b => b ≤ c.toNat && c.toNat < b + 10) with
  | some b => c.toNat - b
  | none => 0

/-- Value of a big-endian run of Unicode decimal digit characters, as
`int()` parses the captured groups of the range regex. -/
def evalNd (cs : List Char) : Nat :=
  cs.foldl (fun a c => 10 * a + digitVal c) 0

/-- The match performed by `re.match(r'^(\d+)-(\d+)$', s)`: a maximal
digit run, a hyphen, a second maximal digit run, then the end of the
string, where `$` also matches just before one trailing newline. -/
def rangeMatch (cs : List Char) : Option (Nat × Nat) :=
  if cs.takeWhile isDigitChar = [] then none
  else
    match cs.dropWhile isDigitChar with
    | [] => none
    | sep :: rest =>
      if sep = '-' then
        if rest.takeWhile isDigitChar = [] then none
        else if rest.dropWhile isDigitChar = [] ∨ rest.dropWhile isDigitChar = ['\n'] then
          some (evalNd (cs.takeWhile isDigitChar), evalNd (rest.takeWhile isDigitChar))
        else none
      else none

/-- Embeds `parse_range` from merge_pages.py. -/
def parse_range (s : String) : Except ToolError (Nat × Nat) :=
  match rangeMatch s.data with
  | some ab => .ok ab
  | none => .error (.valueError
      ("Invalid range format: " ++ s ++ ". Expected format: START-END (e.g., 1-5)"))

/-- The loop of `merge_pages`: check each input path in order, read it,
and append its page 0 to the writer (modelled by the accumulator).
A missing path raises `FileNotFoundError`; a zero-page document makes
`reader.pages[0]` raise `IndexError`. -/
def mergeGo {α : Type} (fs : String → Option (List α)) (out : String) :
    List String → List α → Except ToolError (String × List α)
  | [], acc => .ok (out, acc)
  | p :: rest, acc =>
    match fs p with
    | none => .error (.fileNotFound ("Page file not found: " ++ p))
    | some [] => .error .indexError
    | some (pg :: _) => mergeGo fs out rest (acc ++ [pg])

/-- Embeds `merge_pages` from merge_pages.py: an empty input list
raises `ValueError` before anything else; otherwise the inputs are
visited in order and the written output document is returned together
with the output path. -/
def merge_pages {α : Type} (fs : String → Option (List α))
    (output_path : String) (page_files : List String) :
    Except ToolError (String × List α) :=
  if page_files.isEmpty then .error (.valueError "No page files provided")
  else mergeGo fs output_path page_files []

/-! ## compute_content_hash.py -/

/-- Concatenation of extracted page texts, where a page whose
extraction yields nothing (`None` or the empty string, both falsy in
`extract_text() or ""`) contributes the empty string. -/
def concatTexts (pages : List (Option String)) : String :=
  pages.foldl (fun acc t => acc ++ t.getD "") ""

/-- UTF-8 bytes of one code point; models CPython `str.encode()`. -/
def utf8Bytes (n : Nat) : List Nat :=
  if n < 128 then [n]
  else if n < 2048 then [192 + n / 64, 128 + n % 64]
  else if n < 65536 then [224 + n / 4096, 128 + n / 64 % 64, 128 + n % 64]
  else [240 + n / 262144, 128 + n / 4096 % 64, 128 + n / 64 % 64, 128 + n % 64]

/-- UTF-8 encoding of a string, code point by code point. -/
def utf8Encode (s : String) : List Nat :=
  s.data.flatMap (fun c => utf8Bytes c.toNat)

/-- Embeds `compute_content_hash` from compute_content_hash.py. Pages
are optional strings (the per-page `extract_text()` results); the
`sha256hex` parameter stands for the external
`hashlib.sha256(...).hexdigest()` function applied to a byte list. -/
def compute_content_hash (sha256hex : List Nat → String)
    (fs : String → Option (List (Option String)))
    (input_path : String) (num_pages : Int) : Except ToolError String :=
  match fs input_path with
  | none => .error (.fileNotFound ("Input file not found: " ++ input_path))
  | some doc =>
    if lowerStr (pathSuffix input_path) ≠ ".pdf" then
      .error (.valueError ("Input must be a PDF file, got: " ++ pathSuffix input_path))
    else
      let pages_to_read := (min num_pages (doc.length : Int)).toNat
      .ok (sha256hex (utf8Encode (concatTexts (doc.take pages_to_read))))

/-! ## extract_first_pages.py -/

/-- Embeds `extract_first_pages` from extract_first_pages.py: after the
existence and suffix checks it writes the first
`min(num_pages, total_pages)` pages (none when that bound is not
positive, since `range` of a nonpositive number is empty) to
`output_dir / input name`, returning that path and the written pages. -/
def extract_first_pages {α : Type} (fs : String → Option (List α))
    (input_path output_dir : String) (num_pages : Int) :
    Except ToolError (String × List α) :=
  match fs input_path with
  | none => .error (.fileNotFound ("Input file not found: " ++ input_path))
  | some doc =>
    if lowerStr (pathSuffix input_path) ≠ ".pdf" then
      .error (.valueError ("Input must be a PDF file, got: " ++ pathSuffix input_path))
    else
      .ok (output_dir ++ "/" ++ pathName input_path,
           doc.take (min num_pages (doc.length : Int)).toNat)

/-! ## pdf_stats.py

The token estimate `int(word_count * 1.3)` is evaluated in CPython
binary64 floating point. It is modelled exactly: `fl13` is the binary64
value nearest to 1.3, `roundDouble` rounds a positive rational to the
nearest binary64 value (ties to even) for magnitudes at least 1 — the
only magnitudes that arise, since the inputs are natural numbers and
zero short-circuits — and `pyTruncInt` models `int()` truncation toward
zero. Overflow to infinity (beyond 2^1024) is not modelled. -/

/-- Floor base-two logarithm via fuel (`n` bounds its own bit count). -/
def log2fuel : Nat → Nat → Nat
  | 0, _ => 0
  | f + 1, n => if 2 ≤ n then log2fuel f (n / 2) + 1 else 0

/-- Floor base-two logarithm of a natural number. -/
def natLog2 (n : Nat) : Nat :=
  log2fuel n n

/-- The binary64 double nearest to 1.3, as an exact rational: its
mantissa is the rounding of 1.3 * 2^52. -/
def fl13 : ℚ :=
  5854679515581645 / 4503599627370496

/-- Round a rational to the nearest integer, ties to even. -/
def roundNE (q : ℚ) : ℤ :=
  if q - q.floor < 1 / 2 then q.floor
  else if 1 / 2 < q - q.floor then q.floor + 1
  else if q.floor % 2 = 0 then q.floor else q.floor + 1

/-- Round a nonnegative rational to the binary64 grid (round to
nearest, ties to even): scale by a power of two so the value sits in
the 53-bit integer window, round, and scale back. Exact for 0 and
faithful for all values at least 1; values strictly between 0 and 1 do
not arise in this development. -/
def roundDouble (q : ℚ) : ℚ :=
  if q ≤ 0 then 0
  else if natLog2 q.floor.toNat ≤ 52 then
    (roundNE (q * 2 ^ (52 - natLog2 q.floor.toNat)) : ℚ) / 2 ^ (52 - natLog2 q.floor.toNat)
  else
    (roundNE (q / 2 ^ (natLog2 q.floor.toNat - 52)) : ℚ) * 2 ^ (natLog2 q.floor.toNat - 52)

/-- Models Python `int()` on a float value: truncation toward zero. -/
def pyTruncInt (q : ℚ) : ℤ :=
  if q < 0 then -(-q).floor else q.floor

/-- Models `int(word_count * 1.3)`: the word count is converted to a
double, multiplied by the double nearest 1.3, the product rounded to a
double again, and the result truncated. -/
def tokenEstimate (wc : Nat) : ℤ :=
  pyTruncInt (roundDouble (roundDouble (wc : ℚ) * fl13))

/-- The ASCII whitespace characters recognised by Python `str.split()`
(its additional Unicode whitespace is not modelled). -/
def pyIsSpace (c : Char) : Bool :=
  c = ' ' || c = '\t' || c = '\n' || c = '\x0b' || c = '\x0c' || c = '\r'

/-- Number of maximal nonblank runs: the length of `text.split()`. -/
def countRuns : List Char → Bool → Nat
  | [], _ => 0
  | c :: rest, inWord =>
    if pyIsSpace c then countRuns rest false
    else (if inWord then 0 else 1) + countRuns rest true

/-- Models `len(text.split())`. -/
def wordCount (s : String) : Nat :=
  countRuns s.data false

/-- The dictionary returned by `get_pdf_stats` (the human-readable size
string, a presentation-only field, is left out of the model). -/
structure PdfStats where
  file_size_bytes : Nat
  total_pages : Nat
  pages_analyzed : Int
  word_count : Nat
  token_estimate : Int
  deriving DecidableEq, Repr

/-- Embeds `get_pdf_stats` from pdf_stats.py. `fileSize` models
`os.path.getsize`; `num_pages = none` means all pages. -/
def get_pdf_stats (fs : String → Option (List (Option String)))
    (fileSize : String → Nat) (input_path : String) (num_pages : Option Int) :
    Except ToolError PdfStats :=
  match fs input_path with
  | none => .error (.fileNotFound ("Input file not found: " ++ input_path))
  | some doc =>
    if lowerStr (pathSuffix input_path) ≠ ".pdf" then
      .error (.valueError ("Input must be a PDF file, got: " ++ pathSuffix input_path))
    else
      let total : Int := (doc.length : Int)
      let pages_to_read : Int :=
        match num_pages with
        | none => total
        | some k => min k total
      let text := concatTexts (doc.take pages_to_read.toNat)
      let wc := wordCount text
      .ok { file_size_bytes := fileSize input_path
            total_pages := doc.length
            pages_analyzed := pages_to_read
            word_count := wc
            token_estimate := tokenEstimate wc }

/-! ## Lemmas about range resolution -/

/-- When every requested page number has a match, resolution returns,
in order, the first match of each page number in enumeration order. -/
lemma resolvePages_ok (listing : List String) (dirPath : String) (stem : Option String)
    (ns : List Nat) (h : ∀ n ∈ ns, matchesFor listing stem n ≠ []) :
    resolvePages listing dirPath stem ns =
      .ok (ns.map (fun n => dirPath ++ "/" ++ (matchesFor listing stem n).headD "")) := by
  induction ns with
  | nil => rfl
  | cons n rest ih =>
    have hn := h n (List.mem_cons_self n rest)
    cases hm : matchesFor listing stem n with
    | nil => exact absurd hm hn
    | cons m ms =>
      have ihr := ih (fun x hx => h x (List.mem_cons_of_mem _ hx))
      simp [resolvePages, hm, ihr, Except.map]

/-- A successful resolution covers the whole requested list: one path
per page number, and every page number had a match. -/
lemma resolvePages_ok_inv (listing : List String) (dirPath : String) (stem : Option String) :
    ∀ (ns : List Nat) (l : List String),
      resolvePages listing dirPath stem ns = .ok l →
      l.length = ns.length ∧ ∀ n ∈ ns, matchesFor listing stem n ≠ [] := by
  intro ns
  induction ns with
  | nil =>
    intro l hl
    simp only [resolvePages] at hl
    cases hl
    simp
  | cons n rest ih =>
    intro l hl
    cases hm : matchesFor listing stem n with
    | nil => simp [resolvePages, hm] at hl
    | cons m ms =>
      simp only [resolvePages, hm] at hl
      cases hres : resolvePages listing dirPath stem rest with
      | error e => rw [hres] at hl; simp [Except.map] at hl
      | ok l2 =>
        rw [hres] at hl
        simp only [Except.map, Except.ok.injEq] at hl
        have hr := ih l2 hres
        subst hl
        refine ⟨by simp [hr.1], ?_⟩
        intro x hx
        rcases List.mem_cons.mp hx with h1 | h2
        · subst h1; simp [hm]
        · exact hr.2 x h2

/-- Resolution fails at the first page number in ascending order that
has no match, with the message naming that number and its pattern. -/
lemma resolvePages_first_error (listing : List String) (dirPath : String)
    (stem : Option String) :
    ∀ (k start n0 : Nat), start ≤ n0 → n0 < start + k →
      matchesFor listing stem n0 = [] →
      (∀ m, m < n0 → start ≤ m → matchesFor listing stem m ≠ []) →
      resolvePages listing dirPath stem (List.range' start k) =
        .error (.fileNotFound ("Page file not found for page " ++ natRepr n0 ++
          " with pattern " ++ patternFor stem n0)) := by
  intro k
  induction k with
  | zero =>
    intro start n0 h1 h2 _ _
    omega
  | succ k ih =>
    intro start n0 h1 h2 hmiss hmin
    rw [List.range'_succ]
    rcases Nat.eq_or_lt_of_le h1 with hs | hs
    · subst hs
      simp [resolvePages, hmiss]
    · have hne := hmin start hs le_rfl
      cases hm : matchesFor listing stem start with
      | nil => exact absurd hm hne
      | cons m ms =>
        simp only [resolvePages, hm]
        rw [ih (start + 1) n0 hs (by omega) hmiss (fun m hm1 hm2 => hmin m hm1 (by omega))]
        rfl

/-! ## Claim theorems for range resolution (C2, C3, C6) -/

/-- Claim C2: range resolution is all-or-nothing. If the first page
number in the range without a matching file is `n0`, resolution raises
`NotFoundError` naming `n0` and its pattern; and whenever resolution
returns a list, the list covers the full range, one path per page
number, with every page number matched. -/
theorem c2_all_or_nothing :
    (∀ (listing : List String) (dirPath : String) (stem : Option String)
        (start stop n0 : Nat),
      start ≤ n0 → n0 ≤ stop →
      matchesFor listing stem n0 = [] →
      (∀ m, m < n0 → start ≤ m → matchesFor listing stem m ≠ []) →
      get_pages_from_dir (some listing) dirPath start stop stem =
        .error (.fileNotFound ("Page file not found for page " ++ natRepr n0 ++
          " with pattern " ++ patternFor stem n0)))
    ∧ (∀ (listing : List String) (dirPath : String) (stem : Option String)
        (start stop : Nat) (l : List String),
      get_pages_from_dir (some listing) dirPath start stop stem = .ok l →
      l.length = stop + 1 - start ∧
        ∀ n, start ≤ n → n ≤ stop → matchesFor listing stem n ≠ []) := by
  constructor
  · intro listing dirPath stem start stop n0 h1 h2 hmiss hmin
    exact resolvePages_first_error listing dirPath stem (stop + 1 - start) start n0 h1
      (by omega) hmiss hmin
  · intro listing dirPath stem start stop l hl
    have h := resolvePages_ok_inv listing dirPath stem (List.range' start (stop + 1 - start)) l hl
    refine ⟨by simpa using h.1, ?_⟩
    intro n hn1 hn2
    exact h.2 n (by rw [List.mem_range'_1]; omega)

/-- Witness for C2 at a concrete directory: page 2 of the range 1-2 has
no match, so resolution fails naming page 2 and its pattern. -/
theorem c2_all_or_nothing_witness :
    get_pages_from_dir (some ["a-page-0001.pdf"]) "d" 1 2 none =
      .error (.fileNotFound "Page file not found for page 2 with pattern *-page-0002.pdf") := by
  have h := c2_all_or_nothing.1 ["a-page-0001.pdf"] "d" none 1 2 2
    (by decide) (by decide) (by decide) (by decide)
  exact h.trans (by decide)

/-- Claim C3, amended: for a fixed directory listing (contents in a
fixed enumeration order) resolution is a pure function of the listing,
and the file selected for each page number is the first match in
directory enumeration order — not a lexicographic or otherwise
listing-order-independent choice. -/
theorem c3_first_match_selection :
    ∀ (listing : List String) (dirPath : String) (stem : Option String) (start stop : Nat),
      (∀ n, start ≤ n → n ≤ stop → matchesFor listing stem n ≠ []) →
      get_pages_from_dir (some listing) dirPath start stop stem =
        .ok ((List.range' start (stop + 1 - start)).map
          (fun n => dirPath ++ "/" ++ (matchesFor listing stem n).headD "")) := by
  intro listing dirPath stem start stop h
  refine resolvePages_ok listing dirPath stem _ ?_
  intro n hn
  rw [List.mem_range'_1] at hn
  exact h n hn.1 (by omega)

/-- Witness for the amended C3 at a concrete listing. -/
theorem c3_first_match_selection_witness :
    get_pages_from_dir (some ["b-page-0001.pdf", "a-page-0001.pdf"]) "d" 1 1 none =
      .ok ["d/b-page-0001.pdf"] := by
  have h := c3_first_match_selection ["b-page-0001.pdf", "a-page-0001.pdf"] "d" none 1 1
    (by decide)
  exact h.trans (by decide)

/-- Counterexample to C3 as stated: two directories with the same set
of files but different enumeration orders resolve the wildcard pattern
to different files, so the selection is not determined by the directory
contents alone and is not the lexicographically first match. -/
theorem c3_counterexample :
    (["b-page-0001.pdf", "a-page-0001.pdf"] : List String).Perm
        ["a-page-0001.pdf", "b-page-0001.pdf"]
    ∧ get_pages_from_dir (some ["b-page-0001.pdf", "a-page-0001.pdf"]) "d" 1 1 none =
        .ok ["d/b-page-0001.pdf"]
    ∧ get_pages_from_dir (some ["a-page-0001.pdf", "b-page-0001.pdf"]) "d" 1 1 none =
        .ok ["d/a-page-0001.pdf"] := by
  refine ⟨List.Perm.swap _ _ _, by decide, by decide⟩

/-- Claim C6: a range with `start > stop` resolves to the empty list
without error, for any stem filter and any existing directory. -/
theorem c6_empty_range :
    ∀ (listing : List String) (dirPath : String) (stem : Option String) (start stop : Nat),
      stop < start →
      get_pages_from_dir (some listing) dirPath start stop stem = .ok [] := by
  intro listing dirPath stem start stop h
  have hz : stop + 1 - start = 0 := by omega
  simp [get_pages_from_dir, hz, resolvePages]

/-- Witness for C6, in both the stem-filtered and the wildcard form. -/
theorem c6_empty_range_witness :
    get_pages_from_dir (some ["a-page-0001.pdf"]) "d" 5 2 (some "a") = .ok []
    ∧ get_pages_from_dir (some ["a-page-0001.pdf"]) "d" 5 2 none = .ok [] :=
  ⟨c6_empty_range ["a-page-0001.pdf"] "d" (some "a") 5 2 (by decide),
   c6_empty_range ["a-page-0001.pdf"] "d" none 5 2 (by decide)⟩

/-! ## Lemmas about merging (C4, C8) -/

/-- The merge loop, run over inputs that all exist and all have at
least one page, appends the first page of each input to the
accumulator in list order. `docs` pairs each document head with its
remaining pages. -/
lemma mergeGo_ok {α : Type} (fs : String → Option (List α)) (out : String)
    {paths : List String} {docs : List (α × List α)}
    (h : List.Forall₂ (fun p d => fs p = some (d.1 :: d.2)) paths docs) :
    ∀ acc : List α, mergeGo fs out paths acc = .ok (out, acc ++ docs.map Prod.fst) := by
  induction h with
  | nil => intro acc; simp [mergeGo]
  | cons hpd _ ih =>
    intro acc
    simp only [mergeGo, hpd, ih, List.map_cons]
    simp

/-- The merge loop never raises `ValueError`. -/
lemma mergeGo_ne_valueError {α : Type} (fs : String → Option (List α)) (out : String) :
    ∀ (paths : List String) (acc : List α) (msg : String),
      mergeGo fs out paths acc ≠ .error (.valueError msg) := by
  intro paths
  induction paths with
  | nil => intro acc msg; simp [mergeGo]
  | cons p rest ih =>
    intro acc msg
    cases hp : fs p with
    | none => simp [mergeGo, hp]
    | some doc =>
      cases doc with
      | nil => simp [mergeGo, hp]
      | cons pg tl => simpa [mergeGo, hp] using ih (acc ++ [pg]) msg

/-- When every input before `p` exists with at least one page and `p`
does not exist, the merge loop fails on `p` with its message. -/
lemma mergeGo_first_missing {α : Type} (fs : String → Option (List α)) (out : String)
    (p : String) (post : List String) (hp : fs p = none) :
    ∀ (pre : List String), (∀ q ∈ pre, ∃ pg rest, fs q = some (pg :: rest)) →
      ∀ acc : List α, mergeGo fs out (pre ++ p :: post) acc =
        .error (.fileNotFound ("Page file not found: " ++ p)) := by
  intro pre
  induction pre with
  | nil => intro _ acc; simp [mergeGo, hp]
  | cons q rest ih =>
    intro h acc
    obtain ⟨pg, tl, hq⟩ := h q (List.mem_cons_self q rest)
    simp only [List.cons_append, mergeGo, hq]
    exact ih (fun x hx => h x (List.mem_cons_of_mem _ hx)) (acc ++ [pg])

/-! ## Claim theorems for merging (C4, C8) -/

/-- Claim C4, amended: for every non-empty list of existing input
paths, each holding at least one page, merge returns the document made
of the first page of each input in supplied order — one output page per
input path, regardless of how many further pages each input holds. -/
theorem c4_merge_first_pages :
    ∀ (α : Type) (fs : String → Option (List α)) (out : String)
      (paths : List String) (docs : List (α × List α)),
      paths ≠ [] →
      List.Forall₂ (fun p d => fs p = some (d.1 :: d.2)) paths docs →
      merge_pages fs out paths = .ok (out, docs.map Prod.fst) := by
  intro α fs out paths docs hne h
  have hne2 : paths.isEmpty = false := by
    cases paths with
    | nil => exact absurd rfl hne
    | cons a l => rfl
  simp only [merge_pages, hne2, Bool.false_eq_true, if_false]
  simpa using mergeGo_ok fs out h []

/-- Witness for the amended C4: two existing inputs, the second with
two pages, merge to the two first pages in order. -/
theorem c4_merge_first_pages_witness :
    merge_pages (fun p => if p = "a.pdf" then some [7] else
        if p = "b.pdf" then some [8, 9] else none) "o.pdf" ["a.pdf", "b.pdf"] =
      .ok ("o.pdf", [7, 8]) := by
  have h := c4_merge_first_pages Nat
    (fun p => if p = "a.pdf" then some [7] else if p = "b.pdf" then some [8, 9] else none)
    "o.pdf" ["a.pdf", "b.pdf"] [(7, []), (8, [9])] (by decide)
    (List.Forall₂.cons (by decide) (List.Forall₂.cons (by decide) List.Forall₂.nil))
  exact h.trans (by decide)

/-- Counterexample to C4 as stated: a single existing input with zero
pages makes `reader.pages[0]` raise `IndexError` instead of producing a
one-page output, so the output page count does not equal the input list
length for every existing input. -/
theorem c4_counterexample :
    ((fun p => if p = "e.pdf" then some ([] : List Nat) else none) "e.pdf").isSome = true
    ∧ merge_pages (fun p => if p = "e.pdf" then some ([] : List Nat) else none) "o.pdf"
        ["e.pdf"] = .error .indexError :=
  ⟨by decide, by decide⟩

/-- Claim C8, amended: merge raises `ValueError` exactly on the empty
input list; and for a non-empty list whose first missing path is `p`
(every earlier path exists with at least one page), merge raises
`NotFoundError` naming `p`, checked in sequence order. -/
theorem c8_merge_error_behavior :
    (∀ (α : Type) (fs : String → Option (List α)) (out : String) (paths : List String),
      merge_pages fs out paths = .error (.valueError "No page files provided") ↔ paths = [])
    ∧ (∀ (α : Type) (fs : String → Option (List α)) (out : String)
        (pre post : List String) (p : String),
      (∀ q ∈ pre, ∃ pg rest, fs q = some (pg :: rest)) →
      fs p = none →
      merge_pages fs out (pre ++ p :: post) =
        .error (.fileNotFound ("Page file not found: " ++ p))) := by
  constructor
  · intro α fs out paths
    constructor
    · intro h
      cases paths with
      | nil => rfl
      | cons a l =>
        simp only [merge_pages, List.isEmpty_cons, Bool.false_eq_true, if_false] at h
        exact absurd h (mergeGo_ne_valueError fs out (a :: l) [] _)
    · intro h
      subst h
      rfl
  · intro α fs out pre post p hpre hp
    have hne : (pre ++ p :: post).isEmpty = false := by
      cases pre <;> rfl
    simp only [merge_pages, hne, Bool.false_eq_true, if_false]
    exact mergeGo_first_missing fs out p post hp pre hpre []

/-- Witness for the amended C8: the first missing path among three is
named, fail-fast, without reaching the path after it. -/
theorem c8_merge_error_behavior_witness :
    merge_pages (fun q => if q = "a.pdf" then some [5] else none) "o.pdf"
        ["a.pdf", "m.pdf", "z.pdf"] =
      .error (.fileNotFound "Page file not found: m.pdf") := by
  have h := c8_merge_error_behavior.2 Nat
    (fun q => if q = "a.pdf" then some [5] else none) "o.pdf"
    ["a.pdf"] ["z.pdf"] "m.pdf"
    (by
      intro q hq
      rw [List.mem_singleton] at hq
      subst hq
      exact ⟨5, [], by decide⟩)
    (by decide)
  exact h.trans (by decide)

/-- Counterexample to C8 as stated: the list contains a missing path
(`m.pdf`), but a zero-page existing file before it makes the code raise
`IndexError` first, not `NotFoundError` naming the missing path. -/
theorem c8_counterexample :
    merge_pages (fun p => if p = "z.pdf" then some ([] : List Nat) else none) "o.pdf"
        ["z.pdf", "m.pdf"] = .error .indexError
    ∧ merge_pages (fun p => if p = "z.pdf" then some ([] : List Nat) else none) "o.pdf"
        ["z.pdf", "m.pdf"] ≠ .error (.fileNotFound "Page file not found: m.pdf") :=
  ⟨by decide, by decide⟩

/-! ## Claim theorem for the extractor (C10) -/

/-- Claim C10: for an existing `.pdf` document and a page count at most
zero, extraction succeeds, writes zero pages, and still returns the
output path named by the original file name. -/
theorem c10_extract_nonpositive_count :
    ∀ (α : Type) (fs : String → Option (List α)) (p outDir : String) (n : Int)
      (doc : List α),
      fs p = some doc →
      lowerStr (pathSuffix p) = ".pdf" →
      n ≤ 0 →
      extract_first_pages fs p outDir n = .ok (outDir ++ "/" ++ pathName p, ([] : List α)) := by
  intro α fs p outDir n doc hfs hsuf hn
  have hz : (min n (doc.length : Int)).toNat = 0 :=
    Int.toNat_eq_zero.mpr (le_trans (min_le_left _ _) hn)
  simp [extract_first_pages, hfs, hsuf, hz]

/-- Witness for C10 on a three-page document with page count zero. -/
theorem c10_extract_nonpositive_count_witness :
    extract_first_pages (fun q => if q = "a.pdf" then some [1, 2, 3] else none)
        "a.pdf" "tmp" 0 = .ok ("tmp/a.pdf", ([] : List Nat)) := by
  have h := c10_extract_nonpositive_count Nat
    (fun q => if q = "a.pdf" then some [1, 2, 3] else none) "a.pdf" "tmp" 0 [1, 2, 3]
    (by decide) (by decide) (by decide)
  exact h.trans (by decide)

/-! ## Claim theorem for the content hash (C5) -/

/-- Claim C5: the fingerprint of an existing `.pdf` document is the
digest of the byte encoding of the concatenation, in page order with no
separator, of the extracted text of the first `min(n, totalPages)`
pages, a page with no extractable text contributing the empty string;
hence two documents with identical concatenated leading text give an
identical digest regardless of file name. -/
theorem c5_fingerprint :
    (∀ (sha256hex : List Nat → String) (fs : String → Option (List (Option String)))
        (p : String) (n : Int) (doc : List (Option String)),
      fs p = some doc →
      lowerStr (pathSuffix p) = ".pdf" →
      compute_content_hash sha256hex fs p n =
        .ok (sha256hex (utf8Encode (concatTexts (doc.take (min n (doc.length : Int)).toNat)))))
    ∧ (∀ pages : List (Option String),
      concatTexts (some "" :: pages) = concatTexts (none :: pages))
    ∧ (∀ (sha256hex : List Nat → String)
        (fs1 fs2 : String → Option (List (Option String)))
        (p1 p2 : String) (n : Int) (d1 d2 : List (Option String)),
      fs1 p1 = some d1 → fs2 p2 = some d2 →
      lowerStr (pathSuffix p1) = ".pdf" → lowerStr (pathSuffix p2) = ".pdf" →
      concatTexts (d1.take (min n (d1.length : Int)).toNat) =
        concatTexts (d2.take (min n (d2.length : Int)).toNat) →
      compute_content_hash sha256hex fs1 p1 n = compute_content_hash sha256hex fs2 p2 n) := by
  refine ⟨?_, ?_, ?_⟩
  · intro sha256hex fs p n doc hfs hsuf
    simp [compute_content_hash, hfs, hsuf]
  · intro pages
    rfl
  · intro sha256hex fs1 fs2 p1 p2 n d1 d2 h1 h2 hs1 hs2 heq
    simp [compute_content_hash, h1, h2, hs1, hs2, heq]

/-- Witness for C5: two documents under different names, one two pages
with the second unextractable and one three pages, with equal
concatenated leading text, receive equal digests for page count 3. -/
theorem c5_fingerprint_witness :
    compute_content_hash (fun bs => natRepr bs.length)
        (fun q => if q = "x.pdf" then some [some "ab", none] else none) "x.pdf" 3 =
      compute_content_hash (fun bs => natRepr bs.length)
        (fun q => if q = "y.pdf" then some [none, some "a", some "b"] else none) "y.pdf" 3 :=
  c5_fingerprint.2.2 (fun bs => natRepr bs.length)
    (fun q => if q = "x.pdf" then some [some "ab", none] else none)
    (fun q => if q = "y.pdf" then some [none, some "a", some "b"] else none)
    "x.pdf" "y.pdf" 3 [some "ab", none] [none, some "a", some "b"]
    (by decide) (by decide) (by decide) (by decide) (by decide)

/-! ## Lemmas about range parsing (C7) -/

/-- takeWhile and dropWhile at the first failing element. -/
lemma takeWhile_append_not {α : Type} (p : α → Bool) (xs ys : List α) (y : α)
    (hxs : ∀ c ∈ xs, p c = true) (hy : p y = false) :
    (xs ++ y :: ys).takeWhile p = xs ∧ (xs ++ y :: ys).dropWhile p = y :: ys := by
  induction xs with
  | nil => simp [List.takeWhile, List.dropWhile, hy]
  | cons x xs ih =>
    have hx : p x = true := hxs x (List.mem_cons_self x xs)
    have ih2 := ih (fun c hc => hxs c (List.mem_cons_of_mem _ hc))
    simp [List.takeWhile, List.dropWhile, hx, ih2]

/-- takeWhile and dropWhile on a list all of whose elements pass. -/
lemma takeWhile_all {α : Type} (p : α → Bool) (xs : List α)
    (hxs : ∀ c ∈ xs, p c = true) :
    xs.takeWhile p = xs ∧ xs.dropWhile p = [] := by
  induction xs with
  | nil => simp
  | cons x xs ih =>
    have hx : p x = true := hxs x (List.mem_cons_self x xs)
    have ih2 := ih (fun c hc => hxs c (List.mem_cons_of_mem _ hc))
    simp [List.takeWhile, List.dropWhile, hx, ih2]

/-- The plain token form named by the spec — exactly two nonnegative
decimal integer runs separated by one single hyphen and nothing else.
Modelled from the spec words, for comparison with `parse_range`. -/
def specPlainRangeToken (s : String) : Bool :=
  match s.data.takeWhile isDigitChar, s.data.dropWhile isDigitChar with
  | [], _ => false
  | _, '-' :: rest => !rest.isEmpty && rest.all isDigitChar
  | _, _ => false

/-! ## Claim theorems for range parsing (C7) -/

/-- Claim C7, amended: `parse_range` returns the pair of parsed values
exactly for tokens made of two nonempty runs of Unicode decimal digits
(the unflagged `\d` matches every category-Nd character, not only
ASCII) separated by a single hyphen and followed by nothing or by one
trailing newline (the `$` anchor of the regex also matches just before
a final newline); on every other token it raises `ValidationError`. -/
theorem c7_parse_range_characterization :
    ∀ (s : String) (a b : Nat),
      parse_range s = .ok (a, b) ↔
        ∃ d1 d2 tail : List Char,
          s.data = d1 ++ '-' :: (d2 ++ tail) ∧ d1 ≠ [] ∧ d2 ≠ [] ∧
          (∀ c ∈ d1, isDigitChar c = true) ∧ (∀ c ∈ d2, isDigitChar c = true) ∧
          (tail = [] ∨ tail = ['\n']) ∧ a = evalNd d1 ∧ b = evalNd d2 := by
  intro s a b
  constructor
  · intro h
    unfold parse_range at h
    cases hrm : rangeMatch s.data with
    | none => rw [hrm] at h; cases h
    | some ab =>
      rw [hrm] at h
      cases h
      unfold rangeMatch at hrm
      split at hrm
      · cases hrm
      · rename_i hne1
        split at hrm
        · cases hrm
        · rename_i sep rest heq1
          split at hrm
          · rename_i hsep
            split at hrm
            · cases hrm
            · rename_i hne2
              split at hrm
              · rename_i htail
                cases hrm
                subst hsep
                refine ⟨s.data.takeWhile isDigitChar, rest.takeWhile isDigitChar,
                  rest.dropWhile isDigitChar, ?_, hne1, hne2, ?_, ?_, htail, rfl, rfl⟩
                · conv_lhs => rw [← List.takeWhile_append_dropWhile isDigitChar s.data]
                  rw [heq1]
                  conv_lhs =>
                    rw [← List.takeWhile_append_dropWhile isDigitChar rest]
                · intro c hc
                  exact List.mem_takeWhile_imp hc
                · intro c hc
                  exact List.mem_takeWhile_imp hc
              · cases hrm
          · cases hrm
  · rintro ⟨d1, d2, tail, hs, h1, h2, hd1, hd2, ht, ha, hb⟩
    have hdash : isDigitChar '-' = false := by decide
    have houter := takeWhile_append_not isDigitChar d1 (d2 ++ tail) '-' hd1 hdash
    have hinner : (d2 ++ tail).takeWhile isDigitChar = d2 ∧
        (d2 ++ tail).dropWhile isDigitChar = tail := by
      rcases ht with ht | ht
      · subst ht
        simpa using takeWhile_all isDigitChar d2 hd2
      · subst ht
        exact takeWhile_append_not isDigitChar d2 [] '\n' hd2 (by decide)
    unfold parse_range rangeMatch
    rw [hs, houter.1, houter.2]
    rw [if_neg (by simpa using h1)]
    simp [hinner.1, hinner.2, h2, ht, ha, hb]

/-- Witness for the amended C7 on an ASCII token and on a token of
Arabic-Indic digits, which the unflagged `\d` also accepts. -/
theorem c7_parse_range_witness :
    parse_range "12-345" = .ok (12, 345) ∧ parse_range "١-٢" = .ok (1, 2) :=
  ⟨(c7_parse_range_characterization "12-345" 12 345).mpr
    ⟨['1', '2'], ['3', '4', '5'], [], by decide, by decide, by decide,
     by decide, by decide, Or.inl rfl, by decide, by decide⟩,
   (c7_parse_range_characterization "١-٢" 1 2).mpr
    ⟨['١'], ['٢'], [], by decide, by decide, by decide,
     by decide, by decide, Or.inl rfl, by decide, by decide⟩⟩

/-- Counterexample to C7 as stated: the token with a trailing newline
is not two integers with nothing around them, yet `parse_range` accepts
it, because `$` in the Python regex matches before a final newline. -/
theorem c7_counterexample :
    parse_range "1-2\n" = .ok (1, 2) ∧ specPlainRangeToken "1-2\n" = false :=
  ⟨by decide, by decide⟩

/-! ## Lemmas about decimal formatting and glob matching (C1) -/

/-- Value of a digit character produced by `digitChar`. -/
lemma digitChar_val : ∀ d, d < 10 → (digitChar d).toNat - 48 = d := by decide

/-- `digitChar` never produces a glob metacharacter. -/
lemma digitChar_not_meta (d : Nat) :
    digitChar d ≠ '*' ∧ digitChar d ≠ '?' ∧ digitChar d ≠ '[' := by
  rcases Nat.lt_or_ge d 9 with h | h
  · interval_cases d <;> refine ⟨by decide, by decide, by decide⟩
  · obtain ⟨k, hk⟩ := Nat.exists_eq_add_of_le h
    have h9 : digitChar d = '9' := by rw [hk, Nat.add_comm]; rfl
    rw [h9]
    refine ⟨by decide, by decide, by decide⟩

/-- Every character of the fuel-driven digit expansion is a digit. -/
lemma decDigitsRev_digits : ∀ (f n : Nat), ∀ c ∈ decDigitsRev f n,
    ∃ d, d < 10 ∧ c = digitChar d := by
  intro f
  induction f with
  | zero => intro n c hc; cases hc
  | succ f ih =>
    intro n c hc
    rw [decDigitsRev] at hc
    by_cases h0 : n = 0
    · rw [if_pos h0] at hc; cases hc
    · rw [if_neg h0] at hc
      rcases List.mem_cons.mp hc with h | h
      · exact ⟨n % 10, Nat.mod_lt _ (by norm_num), h⟩
      · exact ih (n / 10) c h

/-- Digits accumulate: folding the decimal evaluation over the
big-endian digits of `n` starting from `a` yields `a` shifted plus `n`. -/
lemma foldl_decDigitsRev : ∀ (f n : Nat), n ≤ f → ∀ a : Nat,
    List.foldl (fun x c => 10 * x + (c.toNat - 48)) a ((decDigitsRev f n).reverse) =
      a * 10 ^ (decDigitsRev f n).length + n := by
  intro f
  induction f with
  | zero =>
    intro n h a
    have h0 : n = 0 := by omega
    subst h0
    simp [decDigitsRev]
  | succ f ih =>
    intro n h a
    by_cases h0 : n = 0
    · subst h0; simp [decDigitsRev]
    · rw [decDigitsRev, if_neg h0, List.reverse_cons, List.foldl_append]
      have hdivle : n / 10 ≤ f := by
        have : n / 10 < n := Nat.div_lt_self (Nat.pos_of_ne_zero h0) (by norm_num)
        omega
      rw [ih (n / 10) hdivle a]
      simp only [List.foldl_cons, List.foldl_nil, List.length_cons]
      rw [digitChar_val (n % 10) (Nat.mod_lt _ (by norm_num))]
      rw [pow_succ, ← mul_assoc]
      have hdm := Nat.div_add_mod n 10
      generalize a * (10 : Nat) ^ (decDigitsRev f (n / 10)).length = B
      omega

/-- Evaluating the decimal representation recovers the number. -/
lemma evalBE_natRepr (n : Nat) : evalBE (natRepr n).data = n := by
  unfold natRepr
  by_cases h0 : n = 0
  · rw [if_pos h0, h0]; decide
  · rw [if_neg h0]
    show List.foldl (fun x c => 10 * x + (c.toNat - 48)) 0 (decDigitsRev n n).reverse = n
    rw [foldl_decDigitsRev n n le_rfl 0]
    simp

/-- Leading zeros do not change the evaluated value when starting at 0. -/
lemma foldl_zeros (k : Nat) (ds : List Char) :
    List.foldl (fun x c => 10 * x + (c.toNat - 48)) 0 (List.replicate k '0' ++ ds) =
      List.foldl (fun x c => 10 * x + (c.toNat - 48)) 0 ds := by
  induction k with
  | zero => rfl
  | succ k ih => simpa [List.replicate_succ] using ih

/-- Evaluating the zero-padded representation recovers the number. -/
lemma evalBE_pad4 (n : Nat) : evalBE (pad4 n).data = n := by
  show List.foldl (fun x c => 10 * x + (c.toNat - 48)) 0
      (List.replicate (4 - (natRepr n).data.length) '0' ++ (natRepr n).data) = n
  rw [foldl_zeros]
  exact evalBE_natRepr n

/-- The padded page ordinal determines the ordinal. -/
lemma pad4_inj {m n : Nat} (h : pad4 m = pad4 n) : m = n := by
  have h2 : evalBE (pad4 m).data = evalBE (pad4 n).data := by rw [h]
  rwa [evalBE_pad4, evalBE_pad4] at h2

/-- The page file name determines the ordinal, for a fixed stem. -/
lemma pageName_inj (stem : String) {m n : Nat} (h : pageName stem m = pageName stem n) :
    m = n := by
  have hd := congrArg String.data h
  unfold pageName at hd
  simp only [String.data_append, List.append_assoc] at hd
  have h1 := List.append_cancel_left hd
  have h2 := List.append_cancel_left h1
  have h3 := List.append_cancel_right h2
  exact pad4_inj (String.ext h3)

/-- On a pattern without glob metacharacters, fnmatch matching is
equality with the pattern. -/
lemma globFuel_noMeta : ∀ (f : Nat) (p s : List Char), p.length + s.length < f →
    (∀ c ∈ p, c ≠ '*' ∧ c ≠ '?' ∧ c ≠ '[') → (globFuel f p s = true ↔ p = s) := by
  intro f
  induction f with
  | zero => intro p s h _; omega
  | succ f ih =>
    intro p s hlen hnm
    cases p with
    | nil =>
      simp only [globFuel, List.isEmpty_iff]
      exact ⟨fun h => h.symm, fun h => h.symm⟩
    | cons c ps =>
      have hc := hnm c (List.mem_cons_self c ps)
      simp only [globFuel]
      rw [if_neg hc.1, if_neg hc.2.1, if_neg hc.2.2]
      cases s with
      | nil => simp
      | cons d s2 =>
        have hlen2 : ps.length + s2.length < f := by
          simp only [List.length_cons] at hlen; omega
        have ihp := ih ps s2 hlen2 (fun x hx => hnm x (List.mem_cons_of_mem _ hx))
        simp [ihp]

/-- Matching a metacharacter-free pattern against a whole name. -/
lemma globMatch_noMeta (p s : List Char)
    (h : ∀ c ∈ p, c ≠ '*' ∧ c ≠ '?' ∧ c ≠ '[') : globMatch p s = true ↔ p = s :=
  globFuel_noMeta _ p s (by omega) h

/-- The padded ordinal has no glob metacharacters. -/
lemma pad4_noMeta (n : Nat) : ∀ c ∈ (pad4 n).data, c ≠ '*' ∧ c ≠ '?' ∧ c ≠ '[' := by
  intro c hc
  have hc2 : c ∈ List.replicate (4 - (natRepr n).data.length) '0' ++ (natRepr n).data := hc
  rcases List.mem_append.mp hc2 with h | h
  · have : c = '0' := List.eq_of_mem_replicate h
    subst this
    refine ⟨by decide, by decide, by decide⟩
  · unfold natRepr at h
    by_cases h0 : n = 0
    · rw [if_pos h0] at h
      have : c = '0' := by simpa using h
      subst this
      refine ⟨by decide, by decide, by decide⟩
    · rw [if_neg h0] at h
      have h3 : c ∈ (decDigitsRev n n).reverse := h
      obtain ⟨d, _, hd⟩ := decDigitsRev_digits n n c (List.mem_reverse.mp h3)
      rw [hd]
      exact digitChar_not_meta d

/-- For a metacharacter-free stem the whole page pattern is
metacharacter-free. -/
lemma pageName_noMeta (stem : String) (n : Nat)
    (h : ∀ c ∈ stem.data, c ≠ '*' ∧ c ≠ '?' ∧ c ≠ '[') :
    ∀ c ∈ (pageName stem n).data, c ≠ '*' ∧ c ≠ '?' ∧ c ≠ '[' := by
  intro c hc
  unfold pageName at hc
  simp only [String.data_append, List.append_assoc] at hc
  rcases List.mem_append.mp hc with h1 | h1
  · exact h c h1
  rcases List.mem_append.mp h1 with h2 | h2
  · have : c ∈ "-page-".data := h2
    fin_cases this <;> refine ⟨by decide, by decide, by decide⟩
  rcases List.mem_append.mp h2 with h3 | h3
  · exact pad4_noMeta n c h3
  · have : c ∈ ".pdf".data := h3
    fin_cases this <;> refine ⟨by decide, by decide, by decide⟩

/-- With an exact, metacharacter-free stem pattern, the glob matches
are exactly the directory entries equal to the pattern. -/
lemma matchesFor_noMeta (listing : List String) (stem : String) (n : Nat)
    (h : ∀ c ∈ stem.data, c ≠ '*' ∧ c ≠ '?' ∧ c ≠ '[') :
    matchesFor listing (some stem) n =
      listing.filter (fun f => decide (pageName stem n = f)) := by
  unfold matchesFor
  apply List.filter_congr
  intro x _
  have hiff := globMatch_noMeta (pageName stem n).data x.data (pageName_noMeta stem n h)
  by_cases he : pageName stem n = x
  · rw [decide_eq_true he]
    exact hiff.mpr (congrArg String.data he)
  · rw [decide_eq_false he]
    cases hb : globMatch (patternFor (some stem) n).data x.data with
    | false => rfl
    | true =>
      have : pageName stem n = x := String.ext (hiff.mp hb)
      exact absurd this he

/-- In a list without duplicates, a member occurs exactly once. -/
lemma count_eq_one_of_nodup_mem {α : Type} [DecidableEq α] {l : List α} {a : α}
    (hnd : l.Nodup) (hm : a ∈ l) : l.count a = 1 := by
  have h1 : l.count a ≤ 1 := List.nodup_iff_count_le_one.mp hnd a
  have h2 : 0 < l.count a := List.count_pos_iff.mpr hm
  omega

/-- Filtering a list for an element it holds exactly once yields just
that element. -/
lemma count_one_filter {α : Type} [DecidableEq α] :
    ∀ (l : List α) (a : α), l.count a = 1 →
      l.filter (fun x => decide (a = x)) = [a] := by
  intro l
  induction l with
  | nil => intro a h; simp at h
  | cons x xs ih =>
    intro a h
    rw [List.count_cons] at h
    by_cases hx : x = a
    · subst hx
      simp only [beq_self_eq_true, if_pos] at h
      have hz : xs.count x = 0 := by omega
      have hnotmem : x ∉ xs := List.count_eq_zero.mp hz
      have hfilter : xs.filter (fun y => decide (x = y)) = [] := by
        rw [List.filter_eq_nil_iff]
        intro b hb
        simp only [decide_eq_true_eq]
        intro hxb
        exact hnotmem (hxb ▸ hb)
      simp [List.filter_cons, hfilter]
    · have hbeq : (x == a) = false := beq_eq_false_iff_ne.mpr hx
      rw [hbeq] at h
      simp only [Bool.false_eq_true, if_false, Nat.add_zero] at h
      have hne : decide (a = x) = false := decide_eq_false (fun hax => hx hax.symm)
      simp [List.filter_cons, hne, ih a h]

/-! ## Claim theorems for the split and resolve round trip (C1) -/

/-- Claim C1, amended: for every existing `.pdf` document whose stem
contains no glob metacharacter, splitting yields exactly one path per
page, named `<stem>-page-<ordinal>.pdf` with the ordinal zero-padded to
4 digits in ordinal order, and resolving the full range `1..P` with
that stem over a directory holding exactly the split files (in any
enumeration order) returns the same ordered path list. -/
theorem c1_split_resolve_roundtrip :
    ∀ (α : Type) (fs : String → Option (List α)) (input outDir : String)
      (doc : List α) (listing : List String),
      fs input = some doc →
      lowerStr (pathSuffix input) = ".pdf" →
      (∀ c ∈ (pathStem input).data, c ≠ '*' ∧ c ≠ '?' ∧ c ≠ '[') →
      listing.Perm ((List.range doc.length).map
        (fun i => pageName (pathStem input) (i + 1))) →
      split_pdf fs input outDir =
        .ok ((List.range doc.length).map
          (fun i => outDir ++ "/" ++ pageName (pathStem input) (i + 1)))
      ∧ get_pages_from_dir (some listing) outDir 1 doc.length (some (pathStem input)) =
          .ok ((List.range doc.length).map
            (fun i => outDir ++ "/" ++ pageName (pathStem input) (i + 1))) := by
  intro α fs input outDir doc listing hfs hsuf hnm hperm
  have hinj : Function.Injective (fun i => pageName (pathStem input) (i + 1)) := by
    intro a b hab
    have := pageName_inj (pathStem input) hab
    omega
  have hnd : ((List.range doc.length).map
      (fun i => pageName (pathStem input) (i + 1))).Nodup :=
    (List.nodup_range doc.length).map hinj
  have hmatch : ∀ n, 1 ≤ n → n ≤ doc.length →
      matchesFor listing (some (pathStem input)) n = [pageName (pathStem input) n] := by
    intro n h1 h2
    rw [matchesFor_noMeta listing (pathStem input) n hnm]
    apply count_one_filter
    rw [hperm.count_eq]
    refine count_eq_one_of_nodup_mem hnd ?_
    refine List.mem_map.mpr ⟨n - 1, List.mem_range.mpr (by omega), ?_⟩
    congr 1
    omega
  constructor
  · simp [split_pdf, hfs, hsuf]
  · show resolvePages listing outDir (some (pathStem input))
        (List.range' 1 (doc.length + 1 - 1)) = _
    have hP : doc.length + 1 - 1 = doc.length := by omega
    rw [hP]
    rw [resolvePages_ok listing outDir (some (pathStem input)) _ (by
      intro n hn
      rw [List.mem_range'_1] at hn
      rw [hmatch n hn.1 (by omega)]
      simp)]
    congr 1
    have hmap : (List.range' 1 doc.length).map
        (fun n => outDir ++ "/" ++ (matchesFor listing (some (pathStem input)) n).headD "") =
        (List.range' 1 doc.length).map
        (fun n => outDir ++ "/" ++ pageName (pathStem input) n) := by
      apply List.map_congr_left
      intro n hn
      rw [List.mem_range'_1] at hn
      rw [hmatch n hn.1 (by omega)]
      rfl
    rw [hmap, List.range'_eq_map_range, List.map_map]
    apply List.map_congr_left
    intro i _
    show outDir ++ "/" ++ pageName (pathStem input) (1 + i) = _
    rw [Nat.add_comm 1 i]

/-- Witness for the amended C1: a two page document named `r.pdf` is
split into `t`, and resolving range 1-2 with stem `r` over the two
split files, listed in reversed enumeration order, returns the split
paths in ordinal order. -/
theorem c1_split_resolve_roundtrip_witness :
    split_pdf (fun p => if p = "r.pdf" then some [(), ()] else none) "r.pdf" "t" =
      .ok ["t/r-page-0001.pdf", "t/r-page-0002.pdf"]
    ∧ get_pages_from_dir (some ["r-page-0002.pdf", "r-page-0001.pdf"]) "t" 1 2 (some "r") =
      .ok ["t/r-page-0001.pdf", "t/r-page-0002.pdf"] := by
  have h := c1_split_resolve_roundtrip Unit
    (fun p => if p = "r.pdf" then some [(), ()] else none) "r.pdf" "t" [(), ()]
    ["r-page-0002.pdf", "r-page-0001.pdf"]
    (by decide) (by decide) (by decide) (by decide)
  exact ⟨h.1.trans (by decide), h.2.trans (by decide)⟩

/-- Counterexample to C1 as stated: a document whose stem holds a glob
character class, `x[1].pdf`, splits to `x[1]-page-0001.pdf`, but the
resolve pattern `x[1]-page-0001.pdf` matches `x1-page-0001.pdf` and not
the literal file name, so resolving the full range over the split
output fails instead of returning the split list. -/
theorem c1_counterexample :
    split_pdf (fun p => if p = "x[1].pdf" then some [()] else none) "x[1].pdf" "d" =
      .ok ["d/x[1]-page-0001.pdf"]
    ∧ get_pages_from_dir (some ["x[1]-page-0001.pdf"]) "d" 1 1 (some "x[1]") =
      .error (.fileNotFound
        "Page file not found for page 1 with pattern x[1]-page-0001.pdf") :=
  ⟨by decide, by decide⟩

/-! ## Lemmas about the binary64 model (C9) -/

/-- `Rat.floor` agrees with the floor of the ordered field ℚ. -/
lemma ratFloor_eq (q : ℚ) : q.floor = ⌊q⌋ := by
  rw [Rat.floor_def', ← Rat.floor_def]

/-- The fuel-driven base-two logarithm brackets its argument. -/
lemma log2fuel_spec : ∀ (f n : Nat), 1 ≤ n → n ≤ f →
    2 ^ log2fuel f n ≤ n ∧ n < 2 ^ (log2fuel f n + 1) := by
  intro f
  induction f with
  | zero => intro n h1 h2; omega
  | succ f ih =>
    intro n h1 h2
    rw [log2fuel]
    by_cases h : 2 ≤ n
    · rw [if_pos h]
      have hd1 : 1 ≤ n / 2 := by omega
      have hd2 : n / 2 ≤ f := by omega
      obtain ⟨ihl, ihr⟩ := ih (n / 2) hd1 hd2
      constructor
      · rw [pow_succ]
        generalize 2 ^ log2fuel f (n / 2) = E at ihl ⊢
        omega
      · rw [pow_succ, pow_succ]
        rw [pow_succ] at ihr
        generalize 2 ^ log2fuel f (n / 2) = E at ihr ⊢
        omega
    · rw [if_neg h]
      simp only [pow_zero, pow_one]
      omega

/-- The argument brackets give bounds for `natLog2`. -/
lemma natLog2_le (n k : Nat) (h1 : 1 ≤ n) (h2 : n < 2 ^ (k + 1)) : natLog2 n ≤ k := by
  by_contra hcon
  push_neg at hcon
  have hb : 2 ^ natLog2 n ≤ n := (log2fuel_spec n n h1 le_rfl).1
  have hm : 2 ^ (k + 1) ≤ 2 ^ natLog2 n := Nat.pow_le_pow_right (by norm_num) (by omega)
  omega

/-- `roundNE` is the floor or the floor plus one. -/
lemma roundNE_cases (q : ℚ) : roundNE q = ⌊q⌋ ∨ roundNE q = ⌊q⌋ + 1 := by
  unfold roundNE
  rw [ratFloor_eq]
  split_ifs <;> simp

/-- `roundNE` never goes below the floor. -/
lemma floor_le_roundNE (q : ℚ) : ⌊q⌋ ≤ roundNE q := by
  rcases roundNE_cases q with h | h <;> omega

/-- `roundNE` moves its argument up by at most one half. -/
lemma roundNE_le (q : ℚ) : (roundNE q : ℚ) ≤ q + 1 / 2 := by
  have hfle := Int.floor_le q
  unfold roundNE
  rw [ratFloor_eq]
  split_ifs with h1 h2 h3 <;> push_cast <;> linarith

/-- `roundNE` moves its argument down by at most one half. -/
lemma le_roundNE (q : ℚ) : q - 1 / 2 ≤ (roundNE q : ℚ) := by
  have hflt := Int.lt_floor_add_one q
  unfold roundNE
  rw [ratFloor_eq]
  split_ifs with h1 h2 h3 <;> push_cast <;> linarith

/-- `roundNE` is exact on integers. -/
lemma roundNE_intCast (m : ℤ) : roundNE (m : ℚ) = m := by
  unfold roundNE
  rw [ratFloor_eq, Int.floor_intCast]
  have hz : ((m : ℚ) - m) = 0 := by ring
  rw [hz]
  norm_num

/-- `roundNE` is exact on natural numbers. -/
lemma roundNE_natCast (m : Nat) : roundNE (m : ℚ) = m := by
  have h : ((m : ℚ)) = ((m : ℤ) : ℚ) := by push_cast; ring
  rw [h, roundNE_intCast]

/-- Truncation toward zero is the floor on nonnegative values. -/
lemma pyTruncInt_nonneg (q : ℚ) (h : 0 ≤ q) : pyTruncInt q = ⌊q⌋ := by
  unfold pyTruncInt
  rw [if_neg (not_lt.mpr h), ratFloor_eq]

/-- Integers below `2 ^ 53` are exactly representable: converting a
word count to a double is the identity in that range. -/
lemma roundDouble_natCast (n : Nat) (h1 : 1 ≤ n) (h2 : n < 2 ^ 53) :
    roundDouble (n : ℚ) = n := by
  unfold roundDouble
  have hpos : (0 : ℚ) < n := by exact_mod_cast (by omega : 0 < n)
  rw [if_neg (by linarith)]
  have hfl : ((n : ℚ).floor).toNat = n := by rw [ratFloor_eq]; simp
  rw [hfl]
  have he : natLog2 n ≤ 52 := natLog2_le n 52 h1 h2
  rw [if_pos he]
  have hx : (n : ℚ) * 2 ^ (52 - natLog2 n) = ((n * 2 ^ (52 - natLog2 n) : ℕ) : ℚ) := by
    push_cast; ring
  rw [hx, roundNE_natCast]
  have hc0 : ((2 : ℚ)) ^ (52 - natLog2 n) ≠ 0 := by positivity
  push_cast
  rw [mul_div_assoc, div_self hc0, mul_one]

/-- For arguments in `[1, 2^47)` the double grid is no coarser than
`2^-6`, so rounding moves the value by at most `1/128`, and the rounded
value never drops below an integer bound of the argument. -/
lemma roundDouble_bounds (q : ℚ) (hq : 1 ≤ q) (h47 : q < 2 ^ 47) :
    (q - 1 / 128 ≤ roundDouble q ∧ roundDouble q ≤ q + 1 / 128) ∧
    ∀ k : ℤ, (k : ℚ) ≤ q → (k : ℚ) ≤ roundDouble q := by
  have hq0 : ¬(q ≤ 0) := by linarith
  have hfl1 : (1 : ℤ) ≤ ⌊q⌋ := Int.le_floor.mpr (by exact_mod_cast hq)
  have hfl2 : ⌊q⌋ < 2 ^ 47 := Int.floor_lt.mpr (by push_cast; exact h47)
  have htn1 : 1 ≤ ⌊q⌋.toNat := by omega
  have htn2 : ⌊q⌋.toNat < 2 ^ 47 := by omega
  have he : natLog2 ⌊q⌋.toNat ≤ 46 := natLog2_le _ 46 htn1 (by omega)
  unfold roundDouble
  rw [ratFloor_eq]
  rw [if_neg hq0, if_pos (by omega : natLog2 ⌊q⌋.toNat ≤ 52)]
  set s := 52 - natLog2 ⌊q⌋.toNat with hs
  have hs6 : 6 ≤ s := by omega
  have hc0 : (0 : ℚ) < 2 ^ s := by positivity
  have hc64 : (64 : ℚ) ≤ 2 ^ s := by
    calc (64 : ℚ) = 2 ^ 6 := by norm_num
    _ ≤ 2 ^ s := by
        apply pow_le_pow_right₀ (by norm_num) hs6
  refine ⟨⟨?_, ?_⟩, ?_⟩
  · have hle := le_roundNE (q * 2 ^ s)
    rw [le_div_iff₀ hc0]
    have hexp : (q - 1 / 128) * 2 ^ s = q * 2 ^ s - (1 / 128) * 2 ^ s := by ring
    rw [hexp]
    have h64 : (1 / 2 : ℚ) ≤ (1 / 128) * 2 ^ s := by linarith
    linarith
  · have hle := roundNE_le (q * 2 ^ s)
    rw [div_le_iff₀ hc0]
    have hexp : (q + 1 / 128) * 2 ^ s = q * 2 ^ s + (1 / 128) * 2 ^ s := by ring
    rw [hexp]
    have h64 : (1 / 2 : ℚ) ≤ (1 / 128) * 2 ^ s := by linarith
    linarith
  · intro k hk
    have hkx : ((k * 2 ^ s : ℤ) : ℚ) ≤ q * 2 ^ s := by
      push_cast
      have := mul_le_mul_of_nonneg_right hk (le_of_lt hc0)
      linarith
    have hkf : (k * 2 ^ s : ℤ) ≤ ⌊q * 2 ^ s⌋ := Int.le_floor.mpr hkx
    have hkr : (k * 2 ^ s : ℤ) ≤ roundNE (q * 2 ^ s) :=
      le_trans hkf (floor_le_roundNE (q * 2 ^ s))
    rw [le_div_iff₀ hc0]
    calc (k : ℚ) * 2 ^ s = ((k * 2 ^ s : ℤ) : ℚ) := by push_cast; ring
    _ ≤ (roundNE (q * 2 ^ s) : ℚ) := by exact_mod_cast hkr

/-- The token estimate agrees with the exact floor of `wc * 13 / 10`
for every word count up to `10 ^ 14` — far beyond any real document.
Outside this range, float rounding can diverge from the exact value. -/
lemma tokenEstimate_exact (wc : Nat) (hwc : wc ≤ 10 ^ 14) :
    tokenEstimate wc = ((13 * wc) / 10 : Nat) := by
  by_cases h0 : wc = 0
  · subst h0
    simp [tokenEstimate, roundDouble, pyTruncInt, ratFloor_eq]
  · have h1n : 1 ≤ wc := by omega
    have hlt53 : wc < 2 ^ 53 := by
      calc wc ≤ 10 ^ 14 := hwc
      _ < 2 ^ 53 := by norm_num
    unfold tokenEstimate
    rw [roundDouble_natCast wc h1n hlt53]
    have hwc1 : (1 : ℚ) ≤ (wc : ℚ) := by exact_mod_cast h1n
    have hwcle : (wc : ℚ) ≤ 10 ^ 14 := by exact_mod_cast hwc
    have hq1 : (1 : ℚ) ≤ (wc : ℚ) * fl13 := by
      have : (1 : ℚ) ≤ fl13 := by norm_num [fl13]
      nlinarith
    have hq47 : (wc : ℚ) * fl13 < 2 ^ 47 := by
      calc (wc : ℚ) * fl13 ≤ 10 ^ 14 * fl13 :=
            mul_le_mul_of_nonneg_right hwcle (by norm_num [fl13])
      _ < 2 ^ 47 := by norm_num [fl13]
    obtain ⟨⟨hlow, hup⟩, hint⟩ := roundDouble_bounds ((wc : ℚ) * fl13) hq1 hq47
    have hdm : 10 * ((13 * wc) / 10) + (13 * wc) % 10 = 13 * wc := Nat.div_add_mod (13 * wc) 10
    have hkq : ((((13 * wc) / 10 : Nat) : ℤ) : ℚ) ≤ (wc : ℚ) * fl13 := by
      rw [Int.cast_natCast]
      have e1 : (((13 * wc) / 10 : Nat) : ℚ) ≤ 13 * (wc : ℚ) / 10 := by
        rw [le_div_iff₀ (by norm_num : (0 : ℚ) < 10)]
        exact_mod_cast (by omega : ((13 * wc) / 10) * 10 ≤ 13 * wc)
      have e2 : 13 * (wc : ℚ) / 10 ≤ (wc : ℚ) * fl13 := by
        rw [div_le_iff₀ (by norm_num : (0 : ℚ) < 10)]
        have hds : (13 : ℚ) / 10 ≤ fl13 := by norm_num [fl13]
        nlinarith
      linarith
    have hupk : (wc : ℚ) * fl13 + 1 / 128 < (((13 * wc) / 10 : Nat) : ℚ) + 1 := by
      have hqe : (wc : ℚ) * fl13 = (13 * (wc : ℚ)) / 10 + (wc : ℚ) * (fl13 - 13 / 10) := by
        ring
      have h910 : (13 * (wc : ℚ)) / 10 ≤ (((13 * wc) / 10 : Nat) : ℚ) + 9 / 10 := by
        rw [div_le_iff₀ (by norm_num : (0 : ℚ) < 10)]
        have hcast : (13 : ℚ) * wc = 10 * (((13 * wc) / 10 : Nat) : ℚ) +
            (((13 * wc) % 10 : Nat) : ℚ) := by exact_mod_cast hdm.symm
        have hr9 : (((13 * wc) % 10 : Nat) : ℚ) ≤ 9 := by
          exact_mod_cast (by omega : (13 * wc) % 10 ≤ 9)
        rw [hcast]
        linarith
      have hds : (wc : ℚ) * (fl13 - 13 / 10) ≤ 1 / 225 := by
        have hdelta : (0 : ℚ) ≤ fl13 - 13 / 10 := by norm_num [fl13]
        calc (wc : ℚ) * (fl13 - 13 / 10) ≤ 10 ^ 14 * (fl13 - 13 / 10) :=
              mul_le_mul_of_nonneg_right hwcle hdelta
        _ ≤ 1 / 225 := by norm_num [fl13]
      linarith
    have hkq2 : ((((13 * wc) / 10 : Nat) : ℤ) : ℚ) ≤ roundDouble ((wc : ℚ) * fl13) :=
      hint _ hkq
    have hnn : (0 : ℚ) ≤ roundDouble ((wc : ℚ) * fl13) :=
      le_trans (by positivity) hkq2
    rw [pyTruncInt_nonneg _ hnn]
    have hfl : ⌊roundDouble ((wc : ℚ) * fl13)⌋ = (((13 * wc) / 10 : Nat) : ℤ) := by
      rw [Int.floor_eq_iff]
      refine ⟨hkq2, ?_⟩
      rw [Int.cast_natCast]
      linarith
    rw [hfl]

/-! ## Claim theorems for the token estimate (C9) -/

/-- Claim C9, amended: the reported token estimate is the binary64
evaluation of `int(word_count * 1.3)`, which equals the exact
`floor(word_count * 13 / 10)` for every word count up to `10 ^ 14`;
beyond that range the float product can round to a different integer. -/
theorem c9_token_estimate_floor :
    (∀ (fs : String → Option (List (Option String))) (fileSize : String → Nat)
        (p : String) (np : Option Int) (st : PdfStats),
      get_pdf_stats fs fileSize p np = .ok st →
      st.token_estimate = tokenEstimate st.word_count)
    ∧ ∀ wc : Nat, wc ≤ 10 ^ 14 → tokenEstimate wc = ((13 * wc) / 10 : Nat) := by
  constructor
  · intro fs fileSize p np st h
    unfold get_pdf_stats at h
    cases hfs : fs p with
    | none => rw [hfs] at h; cases h
    | some doc =>
      rw [hfs] at h
      dsimp only at h
      by_cases hsuf : lowerStr (pathSuffix p) ≠ ".pdf"
      · rw [if_pos hsuf] at h; cases h
      · rw [if_neg hsuf] at h
        cases h
        rfl
  · exact tokenEstimate_exact

/-- Witness for the amended C9: the concrete scenario of the spec, a
word count of 1000, reports a token estimate of 1300. -/
theorem c9_token_estimate_floor_witness : tokenEstimate 1000 = 1300 := by
  have h := c9_token_estimate_floor.2 1000 (by norm_num)
  rw [h]
  norm_num

/-- A text of `n` words: the two-character block `a` blank, repeated. -/
def abRun : Nat → List Char
  | 0 => []
  | n + 1 => 'a' :: ' ' :: abRun n

/-- A document text with 4000000000000006 words. -/
def bigText : String :=
  String.mk (abRun 4000000000000006)

/-- The filesystem of the C9 counterexample: one document of one page
whose extracted text is `bigText`. -/
def bigFs : String → Option (List (Option String)) :=
  fun p => if p = "big.pdf" then some [some bigText] else none

/-- Counting the words of the repeated block. -/
lemma countRuns_abRun : ∀ n, countRuns (abRun n) false = n := by
  intro n
  induction n with
  | zero => rfl
  | succ n ih => simp [abRun, countRuns, pyIsSpace, ih, Nat.add_comm]

/-- The empty string is a left identity of string append. -/
lemma empty_append_str (t : String) : "" ++ t = t := by
  apply String.ext
  simp [String.data_append]

/-- The float evaluation at word count 4000000000000006: the exact
product 5200000000000007.8 plus the float excess 0.178 crosses the
midpoint of the containing unit-spaced binade, so the code yields
5200000000000008 where the exact floor is 5200000000000007. -/
lemma tokenEstimate_big : tokenEstimate 4000000000000006 = 5200000000000008 := by
  have hfloor : ⌊(4000000000000006 : ℚ) * fl13⌋ = 5200000000000007 := by
    rw [Int.floor_eq_iff]
    constructor
    · push_cast
      norm_num [fl13]
    · push_cast
      norm_num [fl13]
  have hlog : natLog2 5200000000000007 = 52 := by decide
  have hne : roundNE ((4000000000000006 : ℚ) * fl13) = 5200000000000008 := by
    unfold roundNE
    rw [ratFloor_eq, hfloor]
    rw [if_neg (by norm_num [fl13])]
    rw [if_pos (by norm_num [fl13])]
    norm_num
  have hrd : roundDouble ((4000000000000006 : ℚ) * fl13) =
      ((5200000000000008 : ℤ) : ℚ) := by
    unfold roundDouble
    rw [ratFloor_eq, hfloor]
    rw [if_neg (by norm_num [fl13])]
    rw [show ((5200000000000007 : ℤ)).toNat = 5200000000000007 from rfl]
    rw [hlog]
    rw [if_pos (by norm_num)]
    norm_num [hne]
  unfold tokenEstimate
  rw [roundDouble_natCast 4000000000000006 (by norm_num) (by norm_num)]
  rw [show ((4000000000000006 : ℕ) : ℚ) = (4000000000000006 : ℚ) from by norm_num]
  rw [hrd]
  rw [pyTruncInt_nonneg _ (by positivity)]
  rw [Int.floor_intCast]

/-- Counterexample to C9 as stated: a document whose word count is
4000000000000006 reports a token estimate of 5200000000000008, while
`floor(wordCount * 1.3)` is 5200000000000007 — `int(word_count * 1.3)`
is evaluated in binary64 floating point, not exact arithmetic. -/
theorem c9_counterexample :
    (get_pdf_stats bigFs (fun _ => 0) "big.pdf" none).map
        (fun st => (st.word_count, st.token_estimate)) =
      .ok (4000000000000006, 5200000000000008)
    ∧ (13 * 4000000000000006 : Nat) / 10 = 5200000000000007 := by
  constructor
  · have hwb : wordCount bigText = 4000000000000006 := countRuns_abRun 4000000000000006
    have hsufeq : lowerStr (pathSuffix "big.pdf") = ".pdf" := by decide
    unfold get_pdf_stats
    rw [show bigFs "big.pdf" = some [some bigText] from rfl]
    simp [hsufeq, concatTexts, empty_append_str, hwb, tokenEstimate_big, Except.map]
  · norm_num

end Robin
